import Mathlib

/-!
Verification of the Supernote → Obsidian ingestion script (`src/main.py`).

Strings are modelled as `List Char`.  Python's `str.endswith` is suffix,
`in` is the infix relation, `str.strip` / `str.lstrip` are modelled with
`dropWhile` over Python's whitespace set.  The external collaborators
(converter CLI, Gemini HTTP API, git CLI, the filesystem) are modelled as
explicit inputs/oracles; everything the script itself computes is
translated directly from the source.
-/

namespace NoteToMd

/-- Python whitespace characters (as used by `str.strip()`). -/
def isPySpace (c : Char) : Bool :=
  c = ' ' || c = '\t' || c = '\n' || c = '\r' || c = '\x0b' || c = '\x0c'

/-- `s.lstrip('\n')`: drop leading newline characters. -/
def lstripNl (l : List Char) : List Char := l.dropWhile (· = '\n')

/-- `s.strip()`: drop leading and trailing Python whitespace. -/
def pyStrip (l : List Char) : List Char :=
  (l.dropWhile isPySpace).rdropWhile isPySpace

/-- The fixed section header literal `"## ✨ Supernote"` (line 243). -/
def headerStr : List Char := "## ✨ Supernote".data

/-- Number of occurrences of `pat` in `l` (count of positions where `pat`
is a prefix of the remaining suffix); for nonempty `pat` this is the number
of substring occurrences. -/
def occCount (pat : List Char) : List Char → Nat
  | [] => 0
  | c :: rest => (if pat <+: (c :: rest) then 1 else 0) + occCount pat rest

/-- `entry_block.lstrip('\n')` where
`entry_block = "\n" + markdown_content.strip() + "\n"` (lines 242, 250). -/
def entryText (fragment : List Char) : List Char :=
  lstripNl ('\n' :: (pyStrip fragment ++ ['\n']))

/-- The separator computation of Case 2 (lines 257–259):
```python
separator = "\n\n" if content and not content.endswith('\n') else "\n"
if not content.endswith('\n\n') and content.endswith('\n'): separator = "\n"
if not content: separator = ""
``` -/
def sepCase2 (content : List Char) : List Char :=
  let s1 : List Char := if content ≠ [] ∧ ¬ (['\n'] <:+ content) then ['\n', '\n'] else ['\n']
  let s2 : List Char := if ¬ (['\n', '\n'] <:+ content) ∧ (['\n'] <:+ content) then ['\n'] else s1
  if content = [] then [] else s2

/-- The daily-note merge engine (lines 245–269).  `doc` is the current
content of the target markdown file (`none` when the file does not exist),
`fragment` is the raw `markdown_content` returned by the API. -/
def mergeNote (doc : Option (List Char)) (fragment : List Char) : List Char :=
  match doc with
  | none => headerStr ++ '\n' :: entryText fragment
  | some content =>
    if headerStr <:+: content then
      (if content ≠ [] ∧ ¬ (['\n'] <:+ content) then content ++ ['\n'] else content)
        ++ entryText fragment
    else
      content ++ sepCase2 content ++ headerStr ++ '\n' :: entryText fragment

section OccLemmas

theorem occCount_nil (pat : List Char) : occCount pat [] = 0 := rfl

theorem not_prefix_cons_of_not_mem {pat : List Char} {c : Char} {l : List Char}
    (hc : c ∉ pat) (hp : pat ≠ []) : ¬ pat <+: c :: l := by
  intro h
  match pat, h with
  | p :: pt, h =>
    rw [List.cons_prefix_cons] at h
    exact hc (h.1 ▸ List.mem_cons_self _ _)

theorem occCount_cons_of_not_mem {pat : List Char} {c : Char} {l : List Char}
    (hc : c ∉ pat) (hp : pat ≠ []) : occCount pat (c :: l) = occCount pat l := by
  rw [occCount, if_neg (not_prefix_cons_of_not_mem hc hp), Nat.zero_add]

/-- A prefix cannot reach past a character that is not in the pattern. -/
theorem prefix_append_cons_iff {c : Char} :
    ∀ (pat x y : List Char), c ∉ pat → (pat <+: x ++ c :: y ↔ pat <+: x)
  | [], x, y, _ => by simp
  | p :: pt, [], y, hc => by
    simp only [List.nil_append]
    constructor
    · intro h
      rw [List.cons_prefix_cons] at h
      refine absurd ?_ hc
      rw [← h.1]
      exact List.mem_cons_self _ _
    · intro h
      simp at h
  | p :: pt, a :: x', y, hc => by
    have hct : c ∉ pt := fun hm => hc (List.mem_cons_of_mem _ hm)
    rw [List.cons_append, List.cons_prefix_cons, List.cons_prefix_cons,
      prefix_append_cons_iff pt x' y hct]

/-- Occurrences split at a character that cannot appear inside the pattern. -/
theorem occCount_append_cons {pat : List Char} {c : Char}
    (hc : c ∉ pat) (hp : pat ≠ []) (l1 l2 : List Char) :
    occCount pat (l1 ++ c :: l2) = occCount pat l1 + occCount pat l2 := by
  induction l1 with
  | nil =>
    simp only [List.nil_append, occCount_nil, Nat.zero_add]
    exact occCount_cons_of_not_mem hc hp
  | cons a l1 ih =>
    rw [List.cons_append, occCount, ih, occCount]
    have hiff : (pat <+: a :: (l1 ++ c :: l2)) ↔ pat <+: a :: l1 := by
      have h2 := prefix_append_cons_iff pat (a :: l1) l2 hc
      simpa using h2
    by_cases h : pat <+: a :: l1
    · rw [if_pos (hiff.mpr h), if_pos h]; omega
    · rw [if_neg (fun hh => h (hiff.mp hh)), if_neg h]; omega

theorem occCount_append_single {pat : List Char} {c : Char}
    (hc : c ∉ pat) (hp : pat ≠ []) (l : List Char) :
    occCount pat (l ++ [c]) = occCount pat l := by
  have h2 := occCount_append_cons hc hp l []
  simpa [occCount_nil] using h2

theorem occCount_eq_zero_of_length_lt {pat l : List Char}
    (h : l.length < pat.length) : occCount pat l = 0 := by
  induction l with
  | nil => rfl
  | cons c rest ih =>
    have hlen : rest.length + 1 < pat.length := by simpa using h
    have h1 : ¬ pat <+: c :: rest := by
      intro hpre
      have h2 := hpre.length_le
      simp only [List.length_cons] at h2
      omega
    rw [occCount, if_neg h1, ih (by omega), Nat.zero_add]

theorem occCount_self {pat : List Char} (hp : pat ≠ []) : occCount pat pat = 1 := by
  match pat, hp with
  | p :: pt, _ =>
    rw [occCount, if_pos List.prefix_rfl,
      occCount_eq_zero_of_length_lt (by simp)]

theorem occCount_pos_iff_contains {pat : List Char} (hp : pat ≠ []) (l : List Char) :
    0 < occCount pat l ↔ pat <:+: l := by
  induction l with
  | nil =>
    simp only [occCount_nil]
    constructor
    · omega
    · intro h
      exact absurd (List.eq_nil_of_infix_nil h) hp
  | cons c rest ih =>
    rw [occCount, List.infix_cons_iff]
    by_cases h : pat <+: c :: rest
    · simp [h]
    · simp only [if_neg h, Nat.zero_add, ih]
      tauto

theorem occCount_eq_zero_iff_not_contains {pat : List Char} (hp : pat ≠ []) (l : List Char) :
    occCount pat l = 0 ↔ ¬ pat <:+: l := by
  rw [← occCount_pos_iff_contains hp]
  omega

/-- Occurrences split after a chunk that ends in a newline, provided the
pattern contains no newline. -/
theorem occCount_append_of_suffix_nl {pat a : List Char}
    (hnl : '\n' ∉ pat) (hp : pat ≠ []) (ha : ['\n'] <:+ a) (b : List Char) :
    occCount pat (a ++ b) = occCount pat a + occCount pat b := by
  rcases ha with ⟨init, rfl⟩
  have h1 : init ++ ['\n'] ++ b = init ++ '\n' :: b := by simp
  rw [h1, occCount_append_cons hnl hp, occCount_append_single hnl hp]

theorem headerStr_ne_nil : headerStr ≠ [] := by decide

theorem nl_not_mem_headerStr : '\n' ∉ headerStr := by decide

end OccLemmas

section StripLemmas

theorem dropWhile_head_false {p : Char → Bool} :
    ∀ (l : List Char) {c : Char} {rest : List Char},
      l.dropWhile p = c :: rest → p c = false
  | [], c, rest, h => by simp at h
  | a :: l, c, rest, h => by
    rw [List.dropWhile_cons] at h
    by_cases hp : p a = true
    · exact dropWhile_head_false l (by rwa [if_pos hp] at h)
    · rw [if_neg hp] at h
      cases h
      simpa using hp

/-- The head of the stripped text is not whitespace. -/
theorem pyStrip_head_not_space {l : List Char} {c : Char} {rest : List Char}
    (h : pyStrip l = c :: rest) : isPySpace c = false := by
  have hpre : pyStrip l <+: l.dropWhile isPySpace := by
    unfold pyStrip
    exact List.rdropWhile_prefix _ _
  rw [h] at hpre
  rcases hpre with ⟨t, ht⟩
  refine dropWhile_head_false l (show List.dropWhile isPySpace l = c :: (rest ++ t) from by rw [← ht]; simp)

theorem entryText_of_ne_nil {f : List Char} (h : pyStrip f ≠ []) :
    entryText f = pyStrip f ++ ['\n'] := by
  obtain ⟨c, rest, hs⟩ : ∃ c rest, pyStrip f = c :: rest := by
    cases hcase : pyStrip f with
    | nil => exact absurd hcase h
    | cons c rest => exact ⟨c, rest, rfl⟩
  have hc : isPySpace c = false := pyStrip_head_not_space hs
  have hcn : ¬ (c = '\n') := by
    intro hcn
    rw [hcn] at hc
    simp [isPySpace] at hc
  unfold entryText lstripNl
  rw [hs, List.cons_append, List.dropWhile_cons, if_pos (by decide),
    List.dropWhile_cons, if_neg (by simp [hcn])]

theorem entryText_of_nil {f : List Char} (h : pyStrip f = []) :
    entryText f = [] := by
  unfold entryText lstripNl
  rw [h]
  rfl

theorem occCount_entryText {f : List Char}
    (h : occCount headerStr (pyStrip f) = 0) :
    occCount headerStr (entryText f) = 0 := by
  by_cases hn : pyStrip f = []
  · rw [entryText_of_nil hn]; rfl
  · rw [entryText_of_ne_nil hn,
      occCount_append_single nl_not_mem_headerStr headerStr_ne_nil, h]

theorem entryText_suffix_nl {f : List Char} (h : pyStrip f ≠ []) :
    ['\n'] <:+ entryText f := by
  rw [entryText_of_ne_nil h]
  exact (List.suffix_append _ _)

end StripLemmas

section MergeLemmas

theorem mergeNote_none (f : List Char) :
    mergeNote none f = headerStr ++ '\n' :: entryText f := rfl

theorem mergeNote_some (content f : List Char) :
    mergeNote (some content) f =
      if headerStr <:+: content then
        (if content ≠ [] ∧ ¬ (['\n'] <:+ content) then content ++ ['\n'] else content)
          ++ entryText f
      else content ++ sepCase2 content ++ headerStr ++ '\n' :: entryText f := rfl

/-- The three-branch separator computation collapses to a single rule:
empty for empty content, one newline whenever the content already ends in a
newline (one **or more**), two newlines otherwise. -/
theorem sepCase2_eq (content : List Char) :
    sepCase2 content =
      if content = [] then []
      else if ['\n'] <:+ content then ['\n'] else ['\n', '\n'] := by
  unfold sepCase2
  by_cases h0 : content = []
  · simp [h0]
  · by_cases h1 : ['\n'] <:+ content
    · by_cases h2 : ['\n', '\n'] <:+ content <;> simp [h0, h1, h2]
    · simp [h0, h1]

/-- Whatever the case, the merged document ends with the
(leading-newline-stripped) entry block. -/
theorem mergeNote_entry_suffix (doc : Option (List Char)) (f : List Char) :
    entryText f <:+ mergeNote doc f := by
  match doc with
  | none =>
    rw [mergeNote_none]
    exact ⟨headerStr ++ ['\n'], by simp⟩
  | some content =>
    rw [mergeNote_some]
    by_cases hin : headerStr <:+: content
    · rw [if_pos hin]
      exact List.suffix_append _ _
    · rw [if_neg hin]
      exact ⟨content ++ sepCase2 content ++ headerStr ++ ['\n'], by simp⟩

theorem content_ne_nil_of_contains {content : List Char}
    (hin : headerStr <:+: content) : content ≠ [] := by
  intro h0
  rw [h0] at hin
  exact headerStr_ne_nil (List.eq_nil_of_infix_nil hin)

/-- The merged document always ends with a newline. -/
theorem mergeNote_suffix_nl (doc : Option (List Char)) (f : List Char) :
    ['\n'] <:+ mergeNote doc f := by
  by_cases hent : pyStrip f = []
  · have he : entryText f = [] := entryText_of_nil hent
    match doc with
    | none =>
      rw [mergeNote_none, he]
      exact ⟨headerStr, by simp⟩
    | some content =>
      rw [mergeNote_some]
      by_cases hin : headerStr <:+: content
      · rw [if_pos hin, he, List.append_nil]
        by_cases hcase : content ≠ [] ∧ ¬ (['\n'] <:+ content)
        · rw [if_pos hcase]
          exact List.suffix_append _ _
        · rw [if_neg hcase]
          push_neg at hcase
          exact hcase (content_ne_nil_of_contains hin)
      · rw [if_neg hin, he]
        exact ⟨content ++ sepCase2 content ++ headerStr, by simp⟩
  · exact (entryText_suffix_nl hent).trans (mergeNote_entry_suffix doc f)

/-- Case 3 in the already-terminated situation is a plain append. -/
theorem mergeNote_case3_of_suffix_nl {content : List Char}
    (hin : headerStr <:+: content) (hnl : ['\n'] <:+ content) (f : List Char) :
    mergeNote (some content) f = content ++ entryText f := by
  rw [mergeNote_some, if_pos hin, if_neg (fun h => h.2 hnl)]

/-- The merged document contains the section header exactly once, provided
the fragment's trimmed text does not contain it and the previous document
contained it at most once. -/
theorem mergeNote_occCount (doc : Option (List Char)) (f : List Char)
    (hf : occCount headerStr (pyStrip f) = 0)
    (hdoc : ∀ c, doc = some c → occCount headerStr c ≤ 1) :
    occCount headerStr (mergeNote doc f) = 1 := by
  have hent : occCount headerStr (entryText f) = 0 := occCount_entryText hf
  match doc with
  | none =>
    rw [mergeNote_none, occCount_append_cons nl_not_mem_headerStr headerStr_ne_nil,
      occCount_self headerStr_ne_nil, hent]
  | some content =>
    have hc := hdoc content rfl
    rw [mergeNote_some]
    by_cases hin : headerStr <:+: content
    · rw [if_pos hin]
      have h1 : 0 < occCount headerStr content :=
        (occCount_pos_iff_contains headerStr_ne_nil content).mpr hin
      have hcc : occCount headerStr content = 1 := by omega
      by_cases hend : content ≠ [] ∧ ¬ (['\n'] <:+ content)
      · rw [if_pos hend, List.append_assoc, List.singleton_append,
          occCount_append_cons nl_not_mem_headerStr headerStr_ne_nil, hcc, hent]
      · rw [if_neg hend]
        push_neg at hend
        have hnl : ['\n'] <:+ content := hend (content_ne_nil_of_contains hin)
        rw [occCount_append_of_suffix_nl nl_not_mem_headerStr headerStr_ne_nil hnl, hcc, hent]
    · rw [if_neg hin]
      have hz : occCount headerStr content = 0 :=
        (occCount_eq_zero_iff_not_contains headerStr_ne_nil content).mpr hin
      rw [sepCase2_eq]
      by_cases hnil : content = []
      · subst hnil
        rw [if_pos (rfl : ([] : List Char) = []), List.nil_append, List.nil_append,
          occCount_append_cons nl_not_mem_headerStr headerStr_ne_nil,
          occCount_self headerStr_ne_nil, hent]
      · rw [if_neg hnil]
        by_cases hnl1 : ['\n'] <:+ content
        · rw [if_pos hnl1]
          simp only [List.append_assoc, List.cons_append, List.singleton_append,
            List.nil_append]
          rw [occCount_append_cons nl_not_mem_headerStr headerStr_ne_nil, hz,
            occCount_append_cons nl_not_mem_headerStr headerStr_ne_nil,
            occCount_self headerStr_ne_nil, hent]
        · rw [if_neg hnl1]
          simp only [List.append_assoc, List.cons_append, List.singleton_append,
            List.nil_append]
          rw [occCount_append_cons nl_not_mem_headerStr headerStr_ne_nil, hz,
            occCount_cons_of_not_mem nl_not_mem_headerStr headerStr_ne_nil,
            occCount_append_cons nl_not_mem_headerStr headerStr_ne_nil,
            occCount_self headerStr_ne_nil, hent]

end MergeLemmas

section MergeClaims

/-- **C1** (corrected, counterexample): for the existing document
`"a\n\n"`, which ends with two newlines, the Case-2 separator computed by
the code (lines 257–259) is a single newline, not the two newlines the
claim asserts. -/
theorem C1_counterexample :
    (['\n', '\n'] <:+ "a\n\n".data) ∧
    sepCase2 "a\n\n".data = ['\n'] ∧ sepCase2 "a\n\n".data ≠ ['\n', '\n'] := by
  decide

/-- **C1** (amended): in Case 2 (document present, header absent) the
separator written before the header line is: empty if the content is
empty, a single newline if the content ends with a newline (one **or
more**), and two newlines otherwise (content nonempty and not
newline-terminated). -/
theorem C1_case2_separator (content f : List Char) (h : ¬ headerStr <:+: content) :
    mergeNote (some content) f =
      content ++ (if content = [] then []
        else if ['\n'] <:+ content then ['\n'] else ['\n', '\n'])
        ++ headerStr ++ '\n' :: entryText f := by
  rw [mergeNote_some, if_neg h, sepCase2_eq]

theorem C1_case2_separator_witness :
    mergeNote (some "# Title\n".data) "x".data =
      "# Title\n".data ++ (if "# Title\n".data = ([] : List Char) then []
        else if ['\n'] <:+ "# Title\n".data then ['\n'] else ['\n', '\n'])
        ++ headerStr ++ '\n' :: entryText "x".data :=
  C1_case2_separator "# Title\n".data "x".data (by decide)

/-- **C2** (corrected, counterexample): merging a fragment whose own text
is the section header itself into an absent document yields a document
containing the header string twice, not exactly once. -/
theorem C2_counterexample :
    occCount headerStr (mergeNote none headerStr) = 2 := by decide

/-- **C2** (amended): for every merge in all three cases, if the
fragment's trimmed text does not contain the section header and the
existing document (when present) contains it at most once, then the
resulting document contains the header exactly once, ends with the entry
block, and (when the trimmed fragment is nonempty) ends with the trimmed
fragment followed by a single newline. -/
theorem C2_header_once_and_fragment_trailing (doc : Option (List Char)) (f : List Char)
    (hf : occCount headerStr (pyStrip f) = 0)
    (hdoc : ∀ c, doc = some c → occCount headerStr c ≤ 1) :
    occCount headerStr (mergeNote doc f) = 1 ∧
    entryText f <:+ mergeNote doc f ∧
    (pyStrip f ≠ [] → pyStrip f ++ ['\n'] <:+ mergeNote doc f) :=
  ⟨mergeNote_occCount doc f hf hdoc, mergeNote_entry_suffix doc f,
    fun h => by
      rw [← entryText_of_ne_nil h]
      exact mergeNote_entry_suffix doc f⟩

theorem C2_header_once_witness :
    occCount headerStr (mergeNote none "Hello".data) = 1 ∧
    entryText "Hello".data <:+ mergeNote none "Hello".data ∧
    (pyStrip "Hello".data ≠ [] →
      pyStrip "Hello".data ++ ['\n'] <:+ mergeNote none "Hello".data) :=
  C2_header_once_and_fragment_trailing none "Hello".data (by decide)
    (fun _ h => nomatch h)

/-- **C4** (corrected, counterexample): merging the fragment consisting of
the header itself twice into an initially absent document yields three
occurrences of the header, not exactly one. -/
theorem C4_counterexample :
    occCount headerStr (mergeNote (some (mergeNote none headerStr)) headerStr) = 3 := by
  decide

/-- **C4** (amended): merging the same fragment twice in sequence — when
the fragment's trimmed text does not contain the header and the initial
document (when present) contains it at most once — yields a document with
the header exactly once, equal to the first result extended by the entry
block, where the first result already ends with the same entry block (both
copies present, in merge order). -/
theorem C4_double_merge (doc : Option (List Char)) (f : List Char)
    (hf : occCount headerStr (pyStrip f) = 0)
    (hdoc : ∀ c, doc = some c → occCount headerStr c ≤ 1) :
    occCount headerStr (mergeNote (some (mergeNote doc f)) f) = 1 ∧
    mergeNote (some (mergeNote doc f)) f = mergeNote doc f ++ entryText f ∧
    entryText f <:+ mergeNote doc f := by
  have h1 : occCount headerStr (mergeNote doc f) = 1 := mergeNote_occCount doc f hf hdoc
  have hin : headerStr <:+: mergeNote doc f :=
    (occCount_pos_iff_contains headerStr_ne_nil _).mp (by omega)
  have hnl : ['\n'] <:+ mergeNote doc f := mergeNote_suffix_nl doc f
  have heq := mergeNote_case3_of_suffix_nl hin hnl f
  refine ⟨?_, heq, mergeNote_entry_suffix doc f⟩
  rw [heq, occCount_append_of_suffix_nl nl_not_mem_headerStr headerStr_ne_nil hnl, h1,
    occCount_entryText hf]

theorem C4_double_merge_witness :
    occCount headerStr (mergeNote (some (mergeNote none "Hello".data)) "Hello".data) = 1 ∧
    mergeNote (some (mergeNote none "Hello".data)) "Hello".data =
      mergeNote none "Hello".data ++ entryText "Hello".data ∧
    entryText "Hello".data <:+ mergeNote none "Hello".data :=
  C4_double_merge none "Hello".data (by decide) (fun _ h => nomatch h)

end MergeClaims

section Scanner

/-- Consume exactly `n` digit characters, returning the rest of the input
(`\d{n}` against a prefix of the input). -/
def digitsRun : Nat → List Char → Option (List Char)
  | 0, l => some l
  | _ + 1, [] => none
  | n + 1, c :: rest => if c.isDigit then digitsRun n rest else none

/-- Consume exactly the literal `lit`, returning the rest of the input. -/
def litRun : List Char → List Char → Option (List Char)
  | [], l => some l
  | _ :: _, [] => none
  | c :: lr, d :: rest => if c = d then litRun lr rest else none

/-- `re.match(r"(\d{8})_(\d{6})\.note", name)` (lines 144, 167): the
pattern is matched against a **prefix** of `name` (`re.match` anchors only
at the start; there is no `$`), so trailing characters after `.note` are
allowed.  `\d` is modelled as an ASCII digit. -/
def matchNotePrefix (name : List Char) : Bool :=
  match digitsRun 8 name with
  | none => false
  | some r1 =>
    match litRun ['_'] r1 with
    | none => false
    | some r2 =>
      match digitsRun 6 r2 with
      | none => false
      | some r3 => (litRun ".note".data r3).isSome

/-- Modelled from the spec: the anchored filename contract
`^\d{8}_\d{6}\.note$` — the whole name must be consumed. -/
def matchNoteExact (name : List Char) : Bool :=
  match digitsRun 8 name with
  | none => false
  | some r1 =>
    match litRun ['_'] r1 with
    | none => false
    | some r2 =>
      match digitsRun 6 r2 with
      | none => false
      | some r3 => litRun ".note".data r3 == some []

/-- The scan loop (lines 141–146): keep directory entries that are regular
files and whose name matches the pattern via `re.match`. -/
def scanNotes (entries : List (List Char)) (isFile : List Char → Bool) :
    List (List Char) :=
  entries.filter (fun n => isFile n && matchNotePrefix n)

/-- **C3** (corrected, counterexample): a filename with extra characters
after the `.note` extension does not match the anchored pattern exactly,
yet the scanner enumerates it as work, because `re.match` only anchors at
the start of the name. -/
theorem C3_counterexample :
    scanNotes ["20240101_123456.note.bak".data] (fun _ => true) =
      ["20240101_123456.note.bak".data] ∧
    matchNoteExact "20240101_123456.note.bak".data = false := by decide

/-- **C3** (amended): an entry of the input directory is included in the
scan result iff it is a regular file and the pattern `\d{8}_\d{6}\.note`
matches a **prefix** of its name; names with trailing extra characters are
therefore enumerated as work. -/
theorem C3_scanner_prefix_match (entries : List (List Char))
    (isFile : List Char → Bool) (n : List Char) :
    n ∈ scanNotes entries isFile ↔
      n ∈ entries ∧ isFile n = true ∧ matchNotePrefix n = true := by
  unfold scanNotes
  rw [List.mem_filter]
  simp [Bool.and_eq_true]

end Scanner

section Ledger

/-- The lines produced by Python's file iteration (universal-newline text
mode): pieces separated by `'\n'`; a trailing newline does not produce a
final empty line; an empty file has no lines. -/
def fileLinesAux (cur : List Char) : List Char → List (List Char)
  | [] => [cur.reverse]
  | c :: rest =>
    if c = '\n' then
      match rest with
      | [] => [cur.reverse]
      | _ :: _ => cur.reverse :: fileLinesAux [] rest
    else fileLinesAux (c :: cur) rest

def fileLines : List Char → List (List Char)
  | [] => []
  | c :: rest => fileLinesAux [] (c :: rest)

/-- `set.add`: insert into a set modelled as a duplicate-free list. -/
def insertSet (s : List (List Char)) (x : List Char) : List (List Char) :=
  if x ∈ s then s else s ++ [x]

/-- `load_processed_files` (lines 80–92): read the ledger file if present
and add `line.strip()` for **every** line to the set; a missing file
yields an empty set. -/
def load_processed_files (file : Option (List Char)) : List (List Char) :=
  match file with
  | none => []
  | some content => ((fileLines content).map pyStrip).foldl insertSet []

theorem mem_insertSet {s : List (List Char)} {x y : List Char} :
    y ∈ insertSet s x ↔ y ∈ s ∨ y = x := by
  unfold insertSet
  split
  · rename_i hx
    constructor
    · exact Or.inl
    · rintro (h | rfl)
      · exact h
      · exact hx
  · simp

theorem mem_foldl_insertSet (l : List (List Char)) :
    ∀ (s : List (List Char)) (y : List Char),
      y ∈ l.foldl insertSet s ↔ y ∈ s ∨ y ∈ l := by
  induction l with
  | nil => intro s y; simp
  | cons x r ih =>
    intro s y
    rw [List.foldl_cons, ih, mem_insertSet, List.mem_cons]
    tauto

/-- **C7** (corrected, counterexample): loading a ledger file whose
content is `"a\n\n"` (a filename line followed by a blank line) yields a
set that **contains the empty string** — the blank line does contribute an
element, contrary to the claim. -/
theorem C7_counterexample :
    ([] : List Char) ∈ load_processed_files (some "a\n\n".data) := by decide

/-- **C7** (amended): a missing ledger file yields the empty set, and for
a present file the loaded set contains exactly the **trimmed lines** of
the file — including the empty string whenever a blank line is present. -/
theorem C7_load_ledger (content : List Char) (x : List Char) :
    load_processed_files none = [] ∧
    (x ∈ load_processed_files (some content) ↔
      x ∈ (fileLines content).map pyStrip) := by
  refine ⟨rfl, ?_⟩
  unfold load_processed_files
  rw [mem_foldl_insertSet]
  simp

end Ledger

section Orchestrator

/-- One part of a Gemini response candidate's content.  `text = some []`
models a present-but-empty `"text"` field (falsy in Python). -/
structure GemPart where
  text : Option (List Char)
deriving DecidableEq

structure GemContent where
  parts : List GemPart
deriving DecidableEq

structure GemCandidate where
  content : Option GemContent
deriving DecidableEq

/-- A decoded recognition response; `candidates = []` models a missing or
empty `"candidates"` field (both are falsy in Python). -/
structure GemResponse where
  candidates : List GemCandidate
deriving DecidableEq

/-- The structural validation of the response (lines 231–239): any of
`candidates` / `content` / `parts` / `text` missing or falsy is an invalid
shape; otherwise the first candidate's first part's text is returned. -/
def extractText (r : GemResponse) : Option (List Char) :=
  match r.candidates with
  | [] => none
  | c :: _ =>
    match c.content with
    | none => none
    | some ct =>
      match ct.parts with
      | [] => none
      | p :: _ =>
        match p.text with
        | none => none
        | some t => if t = [] then none else some t

/-- Outcome of the external stages for one item: the conversion CLI fails,
the HTTP call fails (transport error / non-2xx), the body is not JSON, or
a decoded response `r` is obtained. -/
inductive StageOutcome
  | convFail
  | httpFail
  | badJson
  | response (r : GemResponse)
deriving DecidableEq

/-- Per-item external environment: the stage outcome plus whether the
ledger append (`add_to_processed_log`) succeeds. -/
structure ItemEnv where
  stage : StageOutcome
  ledgerOk : Bool
deriving DecidableEq

/-- Mutable state of one run: the in-memory processed set, the lines
appended to the on-disk ledger this run, the daily documents (path ↦
content), the touched-dates set, and the success counter. -/
structure RunState where
  memLedger : List (List Char)
  ledgerFile : List (List Char)
  docs : List (List Char × List Char)
  touched : List (List Char)
  succeeded : Nat
deriving DecidableEq

def getDoc : List (List Char × List Char) → List Char → Option (List Char)
  | [], _ => none
  | (k, v) :: r, key => if k = key then some v else getDoc r key

def setDoc : List (List Char × List Char) → List Char → List Char →
    List (List Char × List Char)
  | [], key, v => [(key, v)]
  | (k, w) :: r, key, v =>
    if k = key then (k, v) :: r else (k, w) :: setDoc r key v

/-- `f"{year}-{month}-{day}"` derived from the first 8 filename digits. -/
def dateKey (filename : List Char) : List Char :=
  filename.take 4 ++ ['-'] ++ (filename.drop 4).take 2 ++ ['-'] ++
    (filename.drop 6).take 2

def isLeapYear (y : Nat) : Bool :=
  (y % 4 == 0 && y % 100 != 0) || y % 400 == 0

def daysInMonth (y m : Nat) : Nat :=
  if m = 2 then (if isLeapYear y then 29 else 28)
  else if m = 4 ∨ m = 6 ∨ m = 9 ∨ m = 11 then 30
  else 31

def digitsToNat (l : List Char) : Nat :=
  l.foldl (fun a c => a * 10 + (c.toNat - 48)) 0

/-- `datetime.strptime(s, "%Y%m%d")` succeeds: 8 digits encoding a real
calendar date with year ≥ 1 (an invalid date raises `ValueError`, caught
by the per-item handler). -/
def validDate8 (s : List Char) : Bool :=
  if s.length = 8 ∧ s.all Char.isDigit then
    let y := digitsToNat (s.take 4)
    let m := digitsToNat ((s.drop 4).take 2)
    let d := digitsToNat ((s.drop 6).take 2)
    if 1 ≤ y ∧ 1 ≤ m ∧ m ≤ 12 ∧ 1 ≤ d ∧ d ≤ daysInMonth y m then true else false
  else false

/-- Events of one item's pipeline, in the order the code performs them. -/
inductive Ev
  | convert
  | recognize
  | merge
  | ledgerRec
deriving DecidableEq

/-- The per-item pipeline (lines 162–299): returns the updated run state
and the trace of performed stages.  Every failure is caught at the item
boundary, leaving the state unchanged. -/
def processItemT (st : RunState) (filename : List Char) (env : ItemEnv) :
    RunState × List Ev :=
  if matchNotePrefix filename = false then (st, [])
  else if validDate8 (filename.take 8) = false then (st, [])
  else
    match env.stage with
    | .convFail => (st, [.convert])
    | .httpFail => (st, [.convert, .recognize])
    | .badJson => (st, [.convert, .recognize])
    | .response r =>
      match extractText r with
      | none => (st, [.convert, .recognize])
      | some md =>
        let key := dateKey filename
        let path := key ++ ".md".data
        let newDoc := mergeNote (getDoc st.docs path) md
        ({ memLedger :=
             if env.ledgerOk then insertSet st.memLedger filename else st.memLedger
           ledgerFile :=
             if env.ledgerOk then st.ledgerFile ++ [filename] else st.ledgerFile
           docs := setDoc st.docs path newDoc
           touched := insertSet st.touched key
           succeeded := st.succeeded + 1 },
         [.convert, .recognize, .merge, .ledgerRec])

def processItem (st : RunState) (filename : List Char) (env : ItemEnv) :
    RunState :=
  (processItemT st filename env).1

/-- The batch loop: items processed strictly in sequence; a failure never
terminates the loop. -/
def runBatch (st : RunState) : List (List Char × ItemEnv) → RunState
  | [] => st
  | (f, e) :: rest => runBatch (processItem st f e) rest

/-- An item environment in which the pipeline fails before the merge:
conversion error, transport error, malformed JSON, or a response whose
nested `candidates`/`content`/`parts`/`text` chain is missing or empty. -/
def itemFails (env : ItemEnv) : Bool :=
  match env.stage with
  | .response r => (extractText r).isNone
  | _ => true

end Orchestrator

section OrchestratorClaims

/-- The run-level exit classification (lines 333–341): exit 1 iff work
items existed and none succeeded; otherwise exit 0 (full or partial
success). -/
def batchExitCode (numWork succeeded : Nat) : Nat :=
  if succeeded = 0 ∧ numWork ≠ 0 then 1 else 0

/-- **C5** (confirmed): an item whose pipeline fails at any stage —
conversion error, transport error, malformed JSON, or a response missing
any of the nested `candidates`/`content`/`parts`/`text` fields — leaves
the run state (ledger, documents, counters) completely unchanged, and the
batch loop simply continues with the remaining items. -/
theorem C5_item_failure_isolated (st : RunState) (f : List Char) (env : ItemEnv)
    (rest : List (List Char × ItemEnv)) (h : itemFails env = true) :
    processItem st f env = st ∧
    runBatch st ((f, env) :: rest) = runBatch st rest := by
  have h1 : processItem st f env = st := by
    obtain ⟨stage, lok⟩ := env
    unfold processItem processItemT
    cases stage with
    | convFail =>
      split
      · rfl
      · split
        · rfl
        · rfl
    | httpFail =>
      split
      · rfl
      · split
        · rfl
        · rfl
    | badJson =>
      split
      · rfl
      · split
        · rfl
        · rfl
    | response r =>
      simp only [itemFails] at h
      have hx : extractText r = none := Option.isNone_iff_eq_none.mp h
      split
      · rfl
      · split
        · rfl
        · simp only [hx]
  refine ⟨h1, ?_⟩
  show runBatch (processItem st f env) rest = runBatch st rest
  rw [h1]

theorem C5_item_failure_witness :
    processItem ⟨[], [], [], [], 0⟩ "20240101_123456.note".data
        ⟨StageOutcome.response ⟨[⟨some ⟨[⟨none⟩]⟩⟩]⟩, true⟩ = ⟨[], [], [], [], 0⟩ ∧
    runBatch ⟨[], [], [], [], 0⟩
        [("20240101_123456.note".data,
          ⟨StageOutcome.response ⟨[⟨some ⟨[⟨none⟩]⟩⟩]⟩, true⟩)] =
      runBatch ⟨[], [], [], [], 0⟩ [] :=
  C5_item_failure_isolated _ _ _ _ (by decide)

/-- **C8** (confirmed): whenever the per-item pipeline performs a
ledger-record, its trace is exactly convert → recognize → merge →
ledger-record — the ledger append occurs only after conversion,
recognition, and merge have all completed. -/
theorem C8_ledger_record_after_merge (st : RunState) (f : List Char)
    (env : ItemEnv) (h : Ev.ledgerRec ∈ (processItemT st f env).2) :
    (processItemT st f env).2 = [Ev.convert, Ev.recognize, Ev.merge, Ev.ledgerRec] := by
  obtain ⟨stage, lok⟩ := env
  by_cases h1 : matchNotePrefix f = false
  · unfold processItemT at h
    rw [if_pos h1] at h
    simp at h
  · by_cases h2 : validDate8 (f.take 8) = false
    · unfold processItemT at h
      rw [if_neg h1, if_pos h2] at h
      simp at h
    · cases stage with
      | convFail =>
        unfold processItemT at h
        rw [if_neg h1, if_neg h2] at h
        simp at h
      | httpFail =>
        unfold processItemT at h
        rw [if_neg h1, if_neg h2] at h
        simp at h
      | badJson =>
        unfold processItemT at h
        rw [if_neg h1, if_neg h2] at h
        simp at h
      | response r =>
        rcases hx : extractText r with _ | md
        · unfold processItemT at h
          rw [if_neg h1, if_neg h2] at h
          simp only [hx] at h
          simp at h
        · unfold processItemT
          rw [if_neg h1, if_neg h2]
          simp only [hx]

theorem C8_ledger_record_witness :
    (processItemT ⟨[], [], [], [], 0⟩ "20240101_123456.note".data
        ⟨StageOutcome.response ⟨[⟨some ⟨[⟨some "hi".data⟩]⟩⟩]⟩, true⟩).2 =
      [Ev.convert, Ev.recognize, Ev.merge, Ev.ledgerRec] :=
  C8_ledger_record_after_merge _ _ _ (by decide)

/-- **C10** (confirmed): when the ledger append fails after a successful
merge, the item still counts as succeeded, its date is still added to the
touched set, the document update is identical — only the in-memory set and
the on-disk ledger stay unchanged — and the run's exit classification is
the same as if the append had succeeded. -/
theorem C10_ledger_write_failure_keeps_success (st : RunState) (f : List Char)
    (r : GemResponse) (md : List Char) (n : Nat)
    (hx : extractText r = some md) :
    (processItem st f ⟨.response r, false⟩).succeeded =
      (processItem st f ⟨.response r, true⟩).succeeded ∧
    (processItem st f ⟨.response r, false⟩).touched =
      (processItem st f ⟨.response r, true⟩).touched ∧
    (processItem st f ⟨.response r, false⟩).docs =
      (processItem st f ⟨.response r, true⟩).docs ∧
    (processItem st f ⟨.response r, false⟩).memLedger = st.memLedger ∧
    (processItem st f ⟨.response r, false⟩).ledgerFile = st.ledgerFile ∧
    batchExitCode n (processItem st f ⟨.response r, false⟩).succeeded =
      batchExitCode n (processItem st f ⟨.response r, true⟩).succeeded := by
  unfold processItem processItemT
  split
  · exact ⟨rfl, rfl, rfl, rfl, rfl, rfl⟩
  · split
    · exact ⟨rfl, rfl, rfl, rfl, rfl, rfl⟩
    · simp [hx]

theorem C10_ledger_write_failure_witness :
    (processItem ⟨[], [], [], [], 0⟩ "20240101_123456.note".data
        ⟨.response ⟨[⟨some ⟨[⟨some "hi".data⟩]⟩⟩]⟩, false⟩).succeeded =
      (processItem ⟨[], [], [], [], 0⟩ "20240101_123456.note".data
        ⟨.response ⟨[⟨some ⟨[⟨some "hi".data⟩]⟩⟩]⟩, true⟩).succeeded ∧
    (processItem ⟨[], [], [], [], 0⟩ "20240101_123456.note".data
        ⟨.response ⟨[⟨some ⟨[⟨some "hi".data⟩]⟩⟩]⟩, false⟩).touched =
      (processItem ⟨[], [], [], [], 0⟩ "20240101_123456.note".data
        ⟨.response ⟨[⟨some ⟨[⟨some "hi".data⟩]⟩⟩]⟩, true⟩).touched ∧
    (processItem ⟨[], [], [], [], 0⟩ "20240101_123456.note".data
        ⟨.response ⟨[⟨some ⟨[⟨some "hi".data⟩]⟩⟩]⟩, false⟩).docs =
      (processItem ⟨[], [], [], [], 0⟩ "20240101_123456.note".data
        ⟨.response ⟨[⟨some ⟨[⟨some "hi".data⟩]⟩⟩]⟩, true⟩).docs ∧
    (processItem ⟨[], [], [], [], 0⟩ "20240101_123456.note".data
        ⟨.response ⟨[⟨some ⟨[⟨some "hi".data⟩]⟩⟩]⟩, false⟩).memLedger =
      (⟨[], [], [], [], 0⟩ : RunState).memLedger ∧
    (processItem ⟨[], [], [], [], 0⟩ "20240101_123456.note".data
        ⟨.response ⟨[⟨some ⟨[⟨some "hi".data⟩]⟩⟩]⟩, false⟩).ledgerFile =
      (⟨[], [], [], [], 0⟩ : RunState).ledgerFile ∧
    batchExitCode 1 (processItem ⟨[], [], [], [], 0⟩ "20240101_123456.note".data
        ⟨.response ⟨[⟨some ⟨[⟨some "hi".data⟩]⟩⟩]⟩, false⟩).succeeded =
      batchExitCode 1 (processItem ⟨[], [], [], [], 0⟩ "20240101_123456.note".data
        ⟨.response ⟨[⟨some ⟨[⟨some "hi".data⟩]⟩⟩]⟩, true⟩).succeeded :=
  C10_ledger_write_failure_keeps_success _ _ _ "hi".data 1 (by decide)

end OrchestratorClaims

section GitAndScript

/-- Git actions the script can perform (lines 301–322), in order. -/
inductive GitAct
  | revParse
  | add
  | status
  | commit (msg : List Char)
  | push
deriving DecidableEq

/-- External outcomes of the git commands: whether `rev-parse` reports a
working tree, whether `add` succeeds, whether `status --porcelain` shows
staged changes, whether `commit` and `push` succeed. -/
structure GitEnv where
  isRepo : Bool
  addOk : Bool
  stagedNonEmpty : Bool
  commitOk : Bool
  pushOk : Bool
deriving DecidableEq

/-- Lexicographic (code-point) comparison, as Python's `sorted` on
strings. -/
def lexLe : List Char → List Char → Bool
  | [], _ => true
  | _ :: _, [] => false
  | x :: xs, y :: ys => if x < y then true else if y < x then false else lexLe xs ys

def insertSorted (x : List Char) : List (List Char) → List (List Char)
  | [] => [x]
  | y :: r => if lexLe x y then x :: y :: r else y :: insertSorted x r

def sortStrs : List (List Char) → List (List Char)
  | [] => []
  | x :: r => insertSorted x (sortStrs r)

/-- `', '.join(...)`. -/
def joinSep (sep : List Char) : List (List Char) → List Char
  | [] => []
  | [x] => x
  | x :: y :: r => x ++ sep ++ joinSep sep (y :: r)

/-- The commit message (line 303): a fixed prefix followed by the sorted,
comma-separated touched dates. -/
def commit_message (dates : List (List Char)) : List Char :=
  "Update daily notes from Supernote for dates: ".data ++
    joinSep ", ".data (sortStrs dates)

/-- The git phase (lines 301–322): performed only when the touched-dates
set is nonempty; `rev-parse` gates everything, `add` gates `status`, a
nonempty porcelain status gates the single `commit`, whose success gates
the `push` attempt.  No result of these commands flows into the exit
code. -/
def gitPhase (touched : List (List Char)) (env : GitEnv) : List GitAct :=
  if touched = [] then []
  else
    GitAct.revParse ::
      (if env.isRepo then
        GitAct.add ::
          (if env.addOk then
            GitAct.status ::
              (if env.stagedNonEmpty then
                GitAct.commit (commit_message touched) ::
                  (if env.commitOk then [GitAct.push] else [])
              else [])
          else [])
      else [])

def isCommitAct : GitAct → Bool
  | .commit _ => true
  | _ => false

def countCommits : List GitAct → Nat
  | [] => 0
  | a :: r => (if isCommitAct a then 1 else 0) + countCommits r

/-- `files_to_process` (lines 141–150): pattern-matching regular files
minus the loaded processed set. -/
def workSet (entries : List (List Char)) (isFile : List Char → Bool)
    (processed : List (List Char)) : List (List Char) :=
  (scanNotes entries isFile).filter (fun f => !(processed.contains f))

def finalRunState (processed : List (List Char))
    (docs0 : List (List Char × List Char)) (work : List (List Char))
    (envOf : List Char → ItemEnv) : RunState :=
  runBatch ⟨processed, [], docs0, [], 0⟩ (work.map (fun f => (f, envOf f)))

/-- Result of one whole invocation: the process exit code and the git
actions performed. -/
structure ScriptResult where
  exitCode : Nat
  git : List GitAct
deriving DecidableEq

/-- The whole script (credential check at lines 61–68, directory check at
lines 133–135, scan, batch loop, git phase, exit classification at lines
333–341).  `cred` is the API-key file content (`none` when missing),
`envOf` gives each item's external outcomes. -/
def scriptRun (cred : Option (List Char)) (inputDirOk : Bool)
    (entries : List (List Char)) (isFile : List Char → Bool)
    (ledgerFileContent : Option (List Char))
    (docs0 : List (List Char × List Char))
    (envOf : List Char → ItemEnv) (genv : GitEnv) : ScriptResult :=
  match cred with
  | none => ⟨1, []⟩
  | some key =>
    if pyStrip key = [] then ⟨1, []⟩
    else if inputDirOk = false then ⟨1, []⟩
    else
      let processed := load_processed_files ledgerFileContent
      let work := workSet entries isFile processed
      if work = [] then ⟨0, []⟩
      else
        let final := finalRunState processed docs0 work envOf
        ⟨batchExitCode work.length final.succeeded, gitPhase final.touched genv⟩

end GitAndScript

section GitScriptLemmas

theorem scriptRun_some (key : List Char) (inputDirOk : Bool)
    (entries : List (List Char)) (isFile : List Char → Bool)
    (ledgerContent : Option (List Char)) (docs0 : List (List Char × List Char))
    (envOf : List Char → ItemEnv) (genv : GitEnv) :
    scriptRun (some key) inputDirOk entries isFile ledgerContent docs0 envOf genv =
      if pyStrip key = [] then ⟨1, []⟩
      else if inputDirOk = false then ⟨1, []⟩
      else if workSet entries isFile (load_processed_files ledgerContent) = [] then
        ⟨0, []⟩
      else
        ⟨batchExitCode
            (workSet entries isFile (load_processed_files ledgerContent)).length
            (finalRunState (load_processed_files ledgerContent) docs0
              (workSet entries isFile (load_processed_files ledgerContent))
              envOf).succeeded,
          gitPhase
            (finalRunState (load_processed_files ledgerContent) docs0
              (workSet entries isFile (load_processed_files ledgerContent))
              envOf).touched genv⟩ := rfl

/-- No result of the git phase flows into the exit code. -/
theorem scriptRun_exitCode_git_indep (cred : Option (List Char))
    (inputDirOk : Bool) (entries : List (List Char)) (isFile : List Char → Bool)
    (ledgerContent : Option (List Char)) (docs0 : List (List Char × List Char))
    (envOf : List Char → ItemEnv) (g1 g2 : GitEnv) :
    (scriptRun cred inputDirOk entries isFile ledgerContent docs0 envOf g1).exitCode =
      (scriptRun cred inputDirOk entries isFile ledgerContent docs0 envOf g2).exitCode := by
  cases cred with
  | none => rfl
  | some key =>
    rw [scriptRun_some, scriptRun_some]
    by_cases h1 : pyStrip key = []
    · rw [if_pos h1, if_pos h1]
    · rw [if_neg h1, if_neg h1]
      by_cases h2 : inputDirOk = false
      · rw [if_pos h2, if_pos h2]
      · rw [if_neg h2, if_neg h2]
        by_cases h3 : workSet entries isFile (load_processed_files ledgerContent) = []
        · rw [if_pos h3, if_pos h3]
        · rw [if_neg h3, if_neg h3]

theorem mem_insertSorted {x y : List Char} :
    ∀ (l : List (List Char)), y ∈ insertSorted x l ↔ y = x ∨ y ∈ l
  | [] => by simp [insertSorted]
  | z :: r => by
    unfold insertSorted
    split
    · rw [List.mem_cons]
    · rw [List.mem_cons, mem_insertSorted r, List.mem_cons]
      tauto

theorem mem_sortStrs {y : List Char} :
    ∀ (l : List (List Char)), y ∈ sortStrs l ↔ y ∈ l
  | [] => Iff.rfl
  | x :: r => by
    unfold sortStrs
    rw [mem_insertSorted (sortStrs r), mem_sortStrs r, List.mem_cons]

theorem infix_joinSep {sep d : List Char} :
    ∀ {l : List (List Char)}, d ∈ l → d <:+: joinSep sep l
  | [], h => absurd h (List.not_mem_nil d)
  | [x], h => by
    rw [List.mem_singleton] at h
    subst h
    exact List.infix_rfl
  | x :: y :: r, h => by
    rw [List.mem_cons] at h
    cases h with
    | inl h =>
      subst h
      exact List.IsPrefix.isInfix
        ((List.prefix_append d sep).trans (List.prefix_append _ _))
    | inr h =>
      exact (infix_joinSep h).trans (List.suffix_append _ _).isInfix

/-- Every touched date occurs verbatim inside the commit message. -/
theorem commit_message_contains {touched : List (List Char)} {d : List Char}
    (h : d ∈ touched) : d <:+: commit_message touched := by
  unfold commit_message
  exact (infix_joinSep ((mem_sortStrs touched).mpr h)).trans
    (List.suffix_append _ _).isInfix

/-- The only commit the git phase can emit carries the canonical commit
message for the touched set. -/
theorem commit_mem_gitPhase {touched : List (List Char)} {env : GitEnv}
    {msg : List Char} (h : GitAct.commit msg ∈ gitPhase touched env) :
    msg = commit_message touched := by
  obtain ⟨ir, ao, sg, co, po⟩ := env
  unfold gitPhase at h
  by_cases h0 : touched = []
  · rw [if_pos h0] at h
    simp at h
  · rw [if_neg h0] at h
    cases ir <;> cases ao <;> cases sg <;> cases co <;> simp_all

end GitScriptLemmas

section GitScriptClaims

/-- **C6** (confirmed): the process exit code is 1 exactly when the API
key is missing or empty, the input directory is missing, or work items
existed and none succeeded; in every other situation (nothing to do, full
success, partial success) it is 0. -/
theorem C6_exit_code (cred : Option (List Char)) (inputDirOk : Bool)
    (entries : List (List Char)) (isFile : List Char → Bool)
    (ledgerContent : Option (List Char)) (docs0 : List (List Char × List Char))
    (envOf : List Char → ItemEnv) (genv : GitEnv) :
    (scriptRun cred inputDirOk entries isFile ledgerContent docs0 envOf
        genv).exitCode = 1 ↔
      (cred = none ∨
        (∃ k, cred = some k ∧ pyStrip k = []) ∨
        inputDirOk = false ∨
        (workSet entries isFile (load_processed_files ledgerContent) ≠ [] ∧
          (finalRunState (load_processed_files ledgerContent) docs0
            (workSet entries isFile (load_processed_files ledgerContent))
            envOf).succeeded = 0)) := by
  cases cred with
  | none => exact iff_of_true rfl (Or.inl rfl)
  | some key =>
    rw [scriptRun_some]
    by_cases h1 : pyStrip key = []
    · rw [if_pos h1]
      exact iff_of_true rfl (Or.inr (Or.inl ⟨key, rfl, h1⟩))
    · rw [if_neg h1]
      by_cases h2 : inputDirOk = false
      · rw [if_pos h2]
        exact iff_of_true rfl (Or.inr (Or.inr (Or.inl h2)))
      · rw [if_neg h2]
        by_cases h3 : workSet entries isFile (load_processed_files ledgerContent) = []
        · rw [if_pos h3]
          refine iff_of_false (by simp) ?_
          rintro (hno | ⟨k, hk, hs⟩ | hdir | ⟨hw, _⟩)
          · simp at hno
          · cases hk
            exact h1 hs
          · exact h2 hdir
          · exact hw h3
        · rw [if_neg h3]
          by_cases h4 : (finalRunState (load_processed_files ledgerContent) docs0
              (workSet entries isFile (load_processed_files ledgerContent))
              envOf).succeeded = 0
          · have hlen : (workSet entries isFile
                (load_processed_files ledgerContent)).length ≠ 0 :=
              fun hl => h3 (List.length_eq_zero.mp hl)
            refine iff_of_true ?_ (Or.inr (Or.inr (Or.inr ⟨h3, h4⟩)))
            show batchExitCode _ _ = 1
            unfold batchExitCode
            rw [if_pos ⟨h4, hlen⟩]
          · refine iff_of_false ?_ ?_
            · show ¬ batchExitCode _ _ = 1
              unfold batchExitCode
              rw [if_neg (fun hh => h4 hh.1)]
              simp
            · rintro (hno | ⟨k, hk, hs⟩ | hdir | ⟨_, hsucc⟩)
              · simp at hno
              · cases hk
                exact h1 hs
              · exact h2 hdir
              · exact h4 hsucc

/-- **C9** (confirmed): git operations happen only when the touched-dates
set is nonempty, at most one commit is created per run, its message
enumerates every touched date, a non-repository output directory yields
only the repository check, and the push outcome never changes the exit
code. -/
theorem C9_git_operations (touched : List (List Char)) (env : GitEnv)
    (cred : Option (List Char)) (inputDirOk : Bool) (entries : List (List Char))
    (isFile : List Char → Bool) (ledgerContent : Option (List Char))
    (docs0 : List (List Char × List Char)) (envOf : List Char → ItemEnv)
    (b : Bool) (genv : GitEnv) :
    (touched = [] → gitPhase touched env = []) ∧
    countCommits (gitPhase touched env) ≤ 1 ∧
    (∀ msg, GitAct.commit msg ∈ gitPhase touched env →
      msg = commit_message touched ∧ ∀ d ∈ touched, d <:+: msg) ∧
    (env.isRepo = false → touched ≠ [] → gitPhase touched env = [GitAct.revParse]) ∧
    (scriptRun cred inputDirOk entries isFile ledgerContent docs0 envOf
        { genv with pushOk := b }).exitCode =
      (scriptRun cred inputDirOk entries isFile ledgerContent docs0 envOf
        genv).exitCode := by
  refine ⟨?_, ?_, ?_, ?_, ?_⟩
  · intro h
    unfold gitPhase
    rw [if_pos h]
  · obtain ⟨ir, ao, sg, co, po⟩ := env
    unfold gitPhase
    by_cases h0 : touched = []
    · rw [if_pos h0]
      simp [countCommits]
    · rw [if_neg h0]
      cases ir <;> cases ao <;> cases sg <;> cases co <;>
        simp [countCommits, isCommitAct]
  · intro msg hmem
    refine ⟨commit_mem_gitPhase hmem, ?_⟩
    intro d hd
    rw [commit_mem_gitPhase hmem]
    exact commit_message_contains hd
  · intro hrepo hne
    unfold gitPhase
    rw [if_neg hne]
    simp [hrepo]
  · exact scriptRun_exitCode_git_indep _ _ _ _ _ _ _ _ _

theorem C9_git_operations_witness :
    "2024-01-01".data <:+:
      commit_message ["2024-01-02".data, "2024-01-01".data] :=
  (((C9_git_operations ["2024-01-02".data, "2024-01-01".data]
      ⟨true, true, true, true, true⟩ (some "k".data) true [] (fun _ => true)
      none [] (fun _ => ⟨StageOutcome.convFail, true⟩) true
      ⟨true, true, true, true, true⟩).2.2.1
    (commit_message ["2024-01-02".data, "2024-01-01".data]) (by decide)).2)
    "2024-01-01".data (by decide)

end GitScriptClaims
end NoteToMd
